import Mathlib

/-!
Verification of the HTTP load-testing tool (`go-test`): a shallow embedding of
the dispatch/validation/aggregation core (`runTest`, `runSingleConfigTest`,
`showResult` of `main.go`, plus `average`, `maxDuration`, the config structs
of `utils.go`, and the dot-path lookup of the `gjson` dependency), together
with theorems settling the frozen claims about that core.

Modelling conventions:
* Go `int64` values are modelled as `Int`; counter overflow at 2^63 cannot be
  reached by any run with fewer than 2^63 requests and is not modelled.
  Go integer division truncates toward zero, so it is modelled by `Int.tdiv`.
* The network is an oracle: each executed request produces a `ReqEvent`
  (timeout error, other build/transport error, or a received response with an
  optional body-read error).  The worker-loop body of `runSingleConfigTest`
  is the function `processEvent`; the pool of `C` workers racing on the
  pre-filled channel of `N` tokens is the step relation `Step`.
* Go maps used as counters (`ErrorCodes`, `ErrorMessages`) are association
  lists; `bump` is the Go `m[k]++` idiom.
* JSON response bodies are modelled already parsed (`Json`); `gjson.Get`
  over a plain dot-separated key path is `jsonLookup` after splitting the
  path on dots, and `Result.Value()` of gjson (returning a Go `interface`
  value, `nil` both when the path is missing and when it holds JSON null)
  is `gjsonValue`.  Paths with gjson wildcards/escapes/array indexing are
  outside the fragment exercised by the configs and are not modelled.
-/

/-- Parsed JSON value (the body of a received response). -/
inductive Json where
  | null : Json
  | bool (b : Bool) : Json
  | num (q : ℚ) : Json
  | str (s : String) : Json
  | arr (elems : List Json) : Json
  | obj (fields : List (String × Json)) : Json

/-- A Go `interface` value as produced by `gjson.Result.Value()` and by
`encoding/json` unmarshalling of the config's expected-field map.  JSON
numbers become Go `float64`, modelled as `ℚ`.  Composite values
(`[]interface` / `map[string]interface`) are kept opaque: Go's `!=` on two
composites of identical dynamic type would panic, and on a composite versus
a scalar it yields "not equal"; the verified configs only declare scalar
expectations, so `goEq` treats a composite as equal to nothing. -/
inductive GoValue where
  | nil : GoValue
  | bool (b : Bool) : GoValue
  | num (q : ℚ) : GoValue
  | str (s : String) : GoValue
  | composite (j : Json) : GoValue

/-- Go `==` on the `interface` values above (the `jsonValue != value`
comparison in `runSingleConfigTest`). -/
def goEq : GoValue → GoValue → Bool
  | .nil, .nil => true
  | .bool a, .bool b => a == b
  | .num a, .num b => a == b
  | .str a, .str b => a == b
  | _, _ => false

/-- Go `fmt` `%v` rendering of an `interface` value, used to build the
field-mismatch error message.  Integral floats print without a decimal
point; the exact float formatting is approximated (message texts are opaque
map keys for every claim). -/
def goFormat : GoValue → String
  | .nil => "<nil>"
  | .bool true => "true"
  | .bool false => "false"
  | .num q => if q.den = 1 then toString q.num else toString q
  | .str s => s
  | .composite _ => "<composite>"

/-- First binding of a key in a JSON object (gjson matches the first
occurrence of a duplicated key). -/
def lookupField : List (String × Json) → String → Option Json
  | [], _ => none
  | (k0, v) :: rest, k => if k0 = k then some v else lookupField rest k

/-- Descend through object keys in order: the core of `gjson.Get` for a
plain dot-separated path.  `none` is gjson's "path not found". -/
def jsonLookup : Json → List String → Option Json
  | j, [] => some j
  | .obj fs, k :: ks =>
    match lookupField fs k with
    | some v => jsonLookup v ks
    | none => none
  | _, _ :: _ => none

/-- Split a path on `'.'` (accumulator of the current component, reversed). -/
def splitDotsAux : List Char → List Char → List String
  | [], acc => [String.mk acc.reverse]
  | c :: cs, acc =>
    if c = '.' then String.mk acc.reverse :: splitDotsAux cs []
    else splitDotsAux cs (c :: acc)

/-- Split a gjson path string on dots. -/
def splitDots (s : String) : List String := splitDotsAux s.data []

/-- `gjson.Get(jsonStr, path)` restricted to plain dot-paths over the parsed
body. -/
def gjsonGet (body : Json) (path : String) : Option Json :=
  jsonLookup body (splitDots path)

/-- `Result.Value()` of gjson: a missing path (the zero `Result`, whose type
tag is `Null`) and an explicit JSON `null` both come out as Go `nil`. -/
def gjsonValue : Option Json → GoValue
  | none => .nil
  | some .null => .nil
  | some (.bool b) => .bool b
  | some (.num q) => .num q
  | some (.str s) => .str s
  | some (.arr xs) => .composite (.arr xs)
  | some (.obj fs) => .composite (.obj fs)

/-- `gjson.Get(jsonStr, key).Value()` — the value the validator compares. -/
def fieldLookupValue (body : Json) (path : String) : GoValue :=
  gjsonValue (gjsonGet body path)

/-- `Response` of `utils.go`: the expectation record of a target.  A config
that omits `status` unmarshals to the Go zero value `0`; `data` (JSON name
`field`) is the optional dot-path → expected-value map. -/
structure Response where
  status : Int
  data : Option (List (String × GoValue))

/-- `RequestConfig` of `utils.go`. -/
structure RequestConfig where
  url : String
  method : String
  params : Option (List (String × GoValue))
  payload : Option GoValue
  headers : List (String × String)
  response : Response

/-- The status normalization `runTest` performs on each target before its
campaign: `if request.Response.Status == 0 { request.Response.Status = http.StatusOK }`. -/
def normalizeRequest (request : RequestConfig) : RequestConfig :=
  if request.response.status = 0 then
    { request with response := { request.response with status := 200 } }
  else request

/-- `Result` of `main.go` (per-target campaign result). -/
structure Result where
  requestConfig : RequestConfig
  totalRequests : Int
  successRequests : Int
  totalTime : Int
  maxTime : Int
  avgTime : Int
  requestsTimes : List Int
  requestTimeoutNum : Int
  errorCodes : List (Int × Int)
  errorMessages : List (String × Int)

/-- The `Result` literal built at the top of `runSingleConfigTest`
(zero counters, empty maps, the config echoed). -/
def initResult (request : RequestConfig) : Result :=
  { requestConfig := request
    totalRequests := 0
    successRequests := 0
    totalTime := 0
    maxTime := 0
    avgTime := 0
    requestsTimes := []
    requestTimeoutNum := 0
    errorCodes := []
    errorMessages := [] }

/-- Go's `m[k]++` on a counter map. -/
def bump {α : Type} [DecidableEq α] : List (α × Int) → α → List (α × Int)
  | [], k => [(k, 1)]
  | (k0, c) :: rest, k =>
    if k0 = k then (k0, c + 1) :: rest else (k0, c) :: bump rest k

/-- Total count stored under a key (`m[k]` with Go's 0 default, summed over
duplicate entries — `bump` never creates duplicates). -/
def countOf {α : Type} [DecidableEq α] : List (α × Int) → α → Int
  | [], _ => 0
  | (k0, c) :: rest, k =>
    if k0 = k then c + countOf rest k else countOf rest k

/-- Sum of all counts in a counter map. -/
def sumCounts {α : Type} (m : List (α × Int)) : Int :=
  (m.map (·.2)).sum

/-- `average` of `utils.go`: 0 for an empty slice, otherwise the int64
truncating quotient of the total by the length. -/
def average (durations : List Int) : Int :=
  if durations.length = 0 then 0
  else Int.tdiv durations.sum (durations.length : Int)

/-- `maxDuration` of `utils.go`: left fold of `if d > max { max = d }`
starting from 0. -/
def maxDuration (durations : List Int) : Int :=
  durations.foldl (fun m d => if d > m then d else m) 0

/-- The post-join-barrier summary assignments of `runSingleConfigTest`
(`TotalTime` is the measured wall clock, passed in as an oracle value). -/
def finalizeResult (r : Result) (wallClock : Int) : Result :=
  { r with
    totalTime := wallClock
    avgTime := average r.requestsTimes
    maxTime := maxDuration r.requestsTimes }

/-- What the environment (URL parsing, `http.Client.Do`, body reading)
produced for one executed request: a `net.Error` with `Timeout()`, some
other build/transport error, or a received response (status, optional
`io.ReadAll` failure, parsed body).  Elapsed times are the measured
millisecond durations. -/
inductive ReqEvent where
  | timeoutErr (elapsed : Int) : ReqEvent
  | otherErr (msg : String) : ReqEvent
  | response (elapsed : Int) (statusCode : Int) (bodyErr : Option String) (body : Json) : ReqEvent

/-- The declared field checks that fail on the given body, in declaration
order: `gjson.Get(jsonStr, key).Value() != value` for each `(key, value)`
of the expectation map (skipped entirely when the map is absent). -/
def mismatchedFields (request : RequestConfig) (body : Json) : List (String × GoValue) :=
  match request.response.data with
  | none => []
  | some fields => fields.filter fun kv => !(goEq (fieldLookupValue body kv.1) kv.2)

/-- The `fmt.Sprintf` field-validation error message. -/
def fieldMismatchMsg (body : Json) (kv : String × GoValue) : String :=
  "字段 " ++ kv.1 ++ " 验证错误, 期望: " ++ goFormat kv.2 ++ ", 实际: " ++
    goFormat (fieldLookupValue body kv.1)

/-- One iteration of the worker loop of `runSingleConfigTest`, given the
event the environment produced for the request just executed.  Returns the
updated shared `Result` and whether the worker leaves its loop (`break` —
only the body-read-error branch does).  The code's several `mu.Lock`
sections for one event are folded as one update; the counts they produce
commute, so the final state after the join barrier is unaffected. -/
def processEvent (request : RequestConfig) (res : Result) (e : ReqEvent) : Result × Bool :=
  let res := { res with totalRequests := res.totalRequests + 1 }
  match e with
  | .timeoutErr elapsed =>
    ({ res with
        requestTimeoutNum := res.requestTimeoutNum + 1
        requestsTimes := res.requestsTimes ++ [elapsed] }, false)
  | .otherErr msg =>
    ({ res with errorMessages := bump res.errorMessages msg }, false)
  | .response elapsed statusCode bodyErr body =>
    let res := { res with requestsTimes := res.requestsTimes ++ [elapsed] }
    match bodyErr with
    | some msg =>
      ({ res with errorMessages := bump res.errorMessages ("读取响应体错误: " ++ msg) }, true)
    | none =>
      let statusFlag : Bool := request.response.status == statusCode
      let mismatches := mismatchedFields request body
      let res := { res with
        errorMessages := mismatches.foldl (fun m kv => bump m (fieldMismatchMsg body kv)) res.errorMessages }
      let fieldFlag : Bool := mismatches.isEmpty
      (if statusFlag && fieldFlag then
        { res with successRequests := res.successRequests + 1 }
       else if !statusFlag then
        { res with errorCodes := bump res.errorCodes statusCode }
       else res, false)

/-- Dispatch-engine state: tokens still in the closed channel, workers still
inside their loop, and the shared `Result`. -/
structure DState where
  remaining : Nat
  workers : Nat
  agg : Result

/-- Successor state when an active worker consumes one token and its request
produces event `e`. -/
def nextState (request : RequestConfig) (r w : Nat) (agg : Result) (e : ReqEvent) : DState :=
  ⟨r, if (processEvent request agg e).2 then w else w + 1, (processEvent request agg e).1⟩

/-- One scheduler step of the worker pool: either an active worker consumes
a token (the environment choosing the event), or an active worker finds the
closed channel empty and exits its `for range` loop. -/
inductive Step (request : RequestConfig) : DState → DState → Prop where
  | work (r w : Nat) (agg : Result) (e : ReqEvent) :
      Step request ⟨r + 1, w + 1, agg⟩ (nextState request r w agg e)
  | drain (w : Nat) (agg : Result) :
      Step request ⟨0, w + 1, agg⟩ ⟨0, w, agg⟩

/-- Reachability under the scheduler. -/
def Reaches (request : RequestConfig) : DState → DState → Prop :=
  Relation.ReflTransGen (Step request)

/-- Campaign start: `N` tokens pre-filled then closed, `C` workers, fresh
`Result`. -/
def initState (request : RequestConfig) (n c : Nat) : DState :=
  ⟨n, c, initResult request⟩

/-- Sum of all outcome classifications recorded in a `Result`: successes,
timeouts, and every count of the two error maps. -/
def classSum (r : Result) : Int :=
  r.successRequests + r.requestTimeoutNum + sumCounts r.errorCodes + sumCounts r.errorMessages

/-- Latency entries appended by one worker-loop iteration: the measured
elapsed time for a timeout and for every received response (whatever its
body-read or validation result), nothing for other build/transport errors. -/
def latencyRecord : ReqEvent → List Int
  | .timeoutErr t => [t]
  | .otherErr _ => []
  | .response t _ _ _ => [t]

/-- `maxInterval` of the histogram loop in `showResult`:
`maxMs/interval + 1` with `interval = 100`. -/
def numIntervals (maxMs : Int) : Int := Int.tdiv maxMs 100 + 1

/-- The bucket a latency lands in: `index := ms / interval`, clamped to the
last bucket when `index >= maxInterval` (`distribution[index]++`).  A
negative latency would make the Go program panic with an out-of-range
index; measured latencies are nonnegative and the theorems assume so. -/
def bucketIdx (maxInterval d : Int) : Int :=
  if Int.tdiv d 100 ≥ maxInterval then maxInterval - 1 else Int.tdiv d 100

/-- Number of latencies counted into bucket `i` by the histogram loop. -/
def bucketCount (maxMs : Int) (times : List Int) (i : ℕ) : ℕ :=
  times.countP fun d => bucketIdx (numIntervals maxMs) d == (i : Int)

/-- A target whose expectation is plain status 200 with no field checks. -/
def demoConfig : RequestConfig :=
  { url := "http://localhost:8080"
    method := "GET"
    params := none
    payload := none
    headers := []
    response := { status := 200, data := none } }

/-- A target expecting status 200 and two body fields. -/
def twoFieldConfig : RequestConfig :=
  { url := "http://localhost:8080"
    method := "GET"
    params := none
    payload := none
    headers := []
    response := { status := 200, data := some [("a", .str "x"), ("b", .str "y")] } }

/-- Parsed body of the config-file test vector with an explicit null leaf. -/
def demoNullBody : Json := .obj [("a", .obj [("b", .obj [("c", .null)])])]

/-- Parsed body of the config-file test vector with the leaf missing. -/
def demoMissingBody : Json := .obj [("a", .obj [("b", .obj [])])]

/-- A finished aggregate whose latency sequence is `[1, 2]` ms. -/
def demoLatencyResult : Result :=
  { initResult demoConfig with requestsTimes := [1, 2] }

/-- Modelled from the spec: "average latency = arithmetic mean of the
latency sequence (0 if empty)" — the exact rational mean, for comparison
with the code's `average`. -/
def specAverageLatency (durations : List Int) : ℚ :=
  if durations = [] then 0 else (durations.sum : ℚ) / (durations.length : ℚ)

/-- A copy of a target with the expected status replaced (an explicit
`"status": s` entry in the config file; the Go zero value 0 is also what an
omitted `status` field unmarshals to). -/
def withExpectedStatus (request : RequestConfig) (s : Int) : RequestConfig :=
  { request with response := { request.response with status := s } }

theorem sumCounts_bump {α : Type} [DecidableEq α] (m : List (α × Int)) (k : α) :
    sumCounts (bump m k) = sumCounts m + 1 := by
  induction m with
  | nil => simp [bump, sumCounts]
  | cons kv rest ih =>
    obtain ⟨k0, c⟩ := kv
    by_cases h : k0 = k <;> simp [bump, h, sumCounts] at ih ⊢ <;> omega

theorem countOf_bump {α : Type} [DecidableEq α] (m : List (α × Int)) (k k' : α) :
    countOf (bump m k) k' = countOf m k' + (if k = k' then 1 else 0) := by
  induction m with
  | nil => by_cases h : k = k' <;> simp [bump, countOf, h]
  | cons kv rest ih =>
    obtain ⟨k0, c⟩ := kv
    by_cases h0 : k0 = k
    · subst h0
      by_cases h1 : k0 = k'
      · subst h1; simp [bump, countOf]; omega
      · simp [bump, countOf, h1]
    · by_cases h1 : k0 = k'
      · subst h1
        have hkk : ¬(k = k0) := fun h => h0 h.symm
        simp [bump, countOf, h0, ih, hkk]
      · simp [bump, countOf, h0, h1, ih]

theorem sumCounts_foldl_bump {α β : Type} [DecidableEq α] (f : β → α) (l : List β)
    (m : List (α × Int)) :
    sumCounts (l.foldl (fun acc b => bump acc (f b)) m) = sumCounts m + l.length := by
  induction l generalizing m with
  | nil => simp
  | cons b rest ih => simp [List.foldl_cons, ih, sumCounts_bump]; omega

theorem countOf_foldl_bump {α β : Type} [DecidableEq α] (f : β → α) (l : List β)
    (m : List (α × Int)) (k : α) :
    countOf (l.foldl (fun acc b => bump acc (f b)) m) k =
      countOf m k + ((l.map f).count k : Int) := by
  induction l generalizing m with
  | nil => simp
  | cons b rest ih =>
    simp only [List.foldl_cons, ih, countOf_bump, List.map_cons, List.count_cons, beq_iff_eq]
    by_cases h : f b = k <;> simp [h] <;> omega

theorem processEvent_totalRequests (request : RequestConfig) (st : Result) (e : ReqEvent) :
    (processEvent request st e).1.totalRequests = st.totalRequests + 1 := by
  cases e with
  | timeoutErr t => rfl
  | otherErr m => rfl
  | response t s be body =>
    cases be with
    | some m => rfl
    | none =>
      simp only [processEvent]
      split
      · rfl
      · split <;> rfl

theorem processEvent_requestsTimes (request : RequestConfig) (st : Result) (e : ReqEvent) :
    (processEvent request st e).1.requestsTimes = st.requestsTimes ++ latencyRecord e := by
  cases e with
  | timeoutErr t => rfl
  | otherErr m => simp [processEvent, latencyRecord]
  | response t s be body =>
    cases be with
    | some m => rfl
    | none =>
      simp only [processEvent, latencyRecord]
      split
      · rfl
      · split <;> rfl

theorem processEvent_success_iff (request : RequestConfig) (st : Result) (t s : Int)
    (body : Json) :
    ((processEvent request st (.response t s none body)).1.successRequests =
        st.successRequests + 1 ↔
      (request.response.status = s ∧ mismatchedFields request body = [])) ∧
    ((processEvent request st (.response t s none body)).1.successRequests =
        st.successRequests + 1 ∨
      (processEvent request st (.response t s none body)).1.successRequests =
        st.successRequests) := by
  by_cases h1 : request.response.status = s <;>
    by_cases h2 : mismatchedFields request body = [] <;>
      simp [processEvent, h1, h2, List.isEmpty_iff]

theorem processEvent_messages (request : RequestConfig) (st : Result) (t s : Int)
    (body : Json) (m : String) :
    countOf (processEvent request st (.response t s none body)).1.errorMessages m =
      countOf st.errorMessages m +
        (((mismatchedFields request body).map (fieldMismatchMsg body)).count m : Int) := by
  simp only [processEvent]
  split
  · exact countOf_foldl_bump (fieldMismatchMsg body) _ st.errorMessages m
  · split <;> exact countOf_foldl_bump (fieldMismatchMsg body) _ st.errorMessages m

theorem processEvent_classSum (request : RequestConfig) (st : Result) (e : ReqEvent) :
    classSum st + 1 ≤ classSum (processEvent request st e).1 := by
  cases e with
  | timeoutErr t => simp [processEvent, classSum]; omega
  | otherErr m => simp [processEvent, classSum, sumCounts_bump]; omega
  | response t s be body =>
    cases be with
    | some m => simp [processEvent, classSum, sumCounts_bump]; omega
    | none =>
      by_cases h1 : request.response.status = s <;>
        by_cases h2 : mismatchedFields request body = [] <;>
          simp [processEvent, classSum, h1, h2, List.isEmpty_iff, sumCounts_foldl_bump,
            sumCounts_bump] <;>
          try omega
      have := List.length_pos.mpr h2
      omega

theorem reaches_classSum (request : RequestConfig) {s1 s2 : DState}
    (h : Reaches request s1 s2) (hinv : s1.agg.totalRequests ≤ classSum s1.agg) :
    s2.agg.totalRequests ≤ classSum s2.agg := by
  induction h with
  | refl => exact hinv
  | tail hsteps hstep ih =>
    cases hstep with
    | work r w agg e =>
      have h1 := processEvent_totalRequests request agg e
      have h2 := processEvent_classSum request agg e
      have ih2 : agg.totalRequests ≤ classSum agg := ih
      show (processEvent request agg e).1.totalRequests ≤ classSum (processEvent request agg e).1
      omega
    | drain w agg => exact ih

theorem nat_lt_div_succ_mul (m n : ℕ) (h : 0 < n) : m < (m / n + 1) * n := by
  have h1 := Nat.div_add_mod m n
  have h2 := Nat.mod_lt m h
  calc m = n * (m / n) + m % n := h1.symm
    _ < n * (m / n) + n := by omega
    _ = (m / n + 1) * n := by ring

theorem tdiv_natCast (m n : ℕ) : Int.tdiv (m : Int) (n : Int) = ((m / n : ℕ) : Int) :=
  (Int.ofNat_tdiv m n).symm

/-- `average` on a nonempty list of nonnegative entries is the floor of the
exact mean: `q * len ≤ sum < (q + 1) * len`. -/
theorem average_bounds (l : List Int) (h : ∀ d ∈ l, 0 ≤ d) (hne : l ≠ []) :
    average l * (l.length : Int) ≤ l.sum ∧
      l.sum < (average l + 1) * (l.length : Int) := by
  have hs : 0 ≤ l.sum := List.sum_nonneg h
  obtain ⟨m, hm⟩ : ∃ m : ℕ, l.sum = (m : Int) := ⟨l.sum.toNat, (Int.toNat_of_nonneg hs).symm⟩
  have hlen : l.length ≠ 0 := by simpa using hne
  have havg : average l = ((m / l.length : ℕ) : Int) := by
    rw [average, if_neg hlen, hm, tdiv_natCast]
  refine ⟨?_, ?_⟩
  · rw [havg, hm]
    exact_mod_cast Nat.div_mul_le_self m l.length
  · rw [havg, hm]
    exact_mod_cast nat_lt_div_succ_mul m l.length (Nat.pos_of_ne_zero hlen)

theorem foldl_max_ge_acc (l : List Int) (acc : Int) :
    acc ≤ l.foldl (fun m d => if d > m then d else m) acc := by
  induction l generalizing acc with
  | nil => exact le_refl acc
  | cons d rest ih =>
    refine le_trans ?_ (ih (if d > acc then d else acc))
    split <;> omega

theorem foldl_max_ge_mem (l : List Int) (acc : Int) :
    ∀ d ∈ l, d ≤ l.foldl (fun m d => if d > m then d else m) acc := by
  induction l generalizing acc with
  | nil => intro d hd; cases hd
  | cons d0 rest ih =>
    intro d hd
    rcases List.mem_cons.mp hd with h | h
    · subst h
      refine le_trans ?_ (foldl_max_ge_acc rest (if d > acc then d else acc))
      split <;> omega
    · exact ih (if d0 > acc then d0 else acc) d h

theorem foldl_max_acc_or_mem (l : List Int) (acc : Int) :
    l.foldl (fun m d => if d > m then d else m) acc = acc ∨
      l.foldl (fun m d => if d > m then d else m) acc ∈ l := by
  induction l generalizing acc with
  | nil => exact Or.inl rfl
  | cons d0 rest ih =>
    rw [List.foldl_cons]
    rcases ih (if d0 > acc then d0 else acc) with h | h
    · rw [h]
      by_cases hd : d0 > acc
      · rw [if_pos hd]; exact Or.inr (List.mem_cons_self d0 rest)
      · rw [if_neg hd]; exact Or.inl rfl
    · exact Or.inr (List.mem_cons_of_mem d0 h)

theorem maxDuration_nonneg (l : List Int) : 0 ≤ maxDuration l :=
  foldl_max_ge_acc l 0

theorem maxDuration_ub (l : List Int) : ∀ d ∈ l, d ≤ maxDuration l :=
  foldl_max_ge_mem l 0

theorem maxDuration_mem (l : List Int) (h : ∀ d ∈ l, 0 ≤ d) (hne : l ≠ []) :
    maxDuration l ∈ l := by
  rcases foldl_max_acc_or_mem l 0 with h0 | h0
  · cases l with
    | nil => exact absurd rfl hne
    | cons d0 rest =>
      have hle : d0 ≤ maxDuration (d0 :: rest) := maxDuration_ub _ d0 (List.mem_cons_self d0 rest)
      have hge : 0 ≤ d0 := h d0 (List.mem_cons_self d0 rest)
      have h0' : maxDuration (d0 :: rest) = 0 := h0
      have : d0 = maxDuration (d0 :: rest) := by omega
      rw [← this]
      exact List.mem_cons_self d0 rest
  · exact h0

theorem sum_bucketCount_aux (times : List Int) (mi : Int)
    (h : ∀ d ∈ times, 0 ≤ bucketIdx mi d ∧ bucketIdx mi d < mi) :
    (∑ i ∈ Finset.range mi.toNat, times.countP fun d => bucketIdx mi d == (i : Int)) =
      times.length := by
  induction times with
  | nil => simp
  | cons d rest ih =>
    have hd := h d (List.mem_cons_self d rest)
    have hrest : ∀ x ∈ rest, 0 ≤ bucketIdx mi x ∧ bucketIdx mi x < mi :=
      fun x hx => h x (List.mem_cons_of_mem d hx)
    simp only [List.countP_cons, List.length_cons]
    rw [Finset.sum_add_distrib, ih hrest]
    have hcast : bucketIdx mi d = (((bucketIdx mi d).toNat : ℕ) : Int) :=
      (Int.toNat_of_nonneg hd.1).symm
    have hsum : (∑ i ∈ Finset.range mi.toNat,
        if (bucketIdx mi d == (i : Int)) = true then 1 else 0) = 1 := by
      have hmem : (bucketIdx mi d).toNat ∈ Finset.range mi.toNat := by
        rw [Finset.mem_range]
        omega
      calc (∑ i ∈ Finset.range mi.toNat,
              if (bucketIdx mi d == (i : Int)) = true then 1 else 0)
          = ∑ i ∈ Finset.range mi.toNat,
              if (bucketIdx mi d).toNat = i then 1 else 0 := by
            refine Finset.sum_congr rfl fun i _ => ?_
            congr 1
            rw [beq_iff_eq, hcast]
            simp [Int.natCast_inj]
            omega
        _ = 1 := by rw [Finset.sum_ite_eq]; simp [hmem]
    omega

theorem tdiv100_natCast (m : ℕ) : Int.tdiv (m : Int) (100 : Int) = ((m / 100 : ℕ) : Int) := by
  simpa using (Int.ofNat_tdiv m 100).symm

theorem tdiv100_nonneg (a : Int) (ha : 0 ≤ a) : 0 ≤ Int.tdiv a 100 := by
  obtain ⟨m, rfl⟩ := Int.eq_ofNat_of_zero_le ha
  rw [tdiv100_natCast]
  exact Int.natCast_nonneg _

theorem bucketIdx_range (mi d : Int) (hmi : 1 ≤ mi) (hd : 0 ≤ d) :
    0 ≤ bucketIdx mi d ∧ bucketIdx mi d < mi := by
  have h0 : 0 ≤ Int.tdiv d 100 := tdiv100_nonneg d hd
  unfold bucketIdx
  split <;> omega

/-- C1: the claim says the returned `Result`'s `TotalRequests` equals `N`
once all workers exit, for every campaign and whatever per-request errors
occurred.  The code evaluated at a failing input (N = 2, C = 1, the lone
worker's first response suffers a body-read error): the `break` in the
body-read-error branch makes the worker leave its loop with one work unit
still queued, every worker has exited, and `TotalRequests` is 1, not 2. -/
theorem C1_bodyReadError_undercounts_total :
    ∃ s : DState, Reaches demoConfig (initState demoConfig 2 1) s ∧
      s.workers = 0 ∧ s.remaining = 1 ∧ s.agg.totalRequests = 1 ∧
      s.agg.totalRequests ≠ 2 := by
  refine ⟨nextState demoConfig 1 0 (initResult demoConfig)
      (.response 5 200 (some "unexpected EOF") (.obj [])),
    Relation.ReflTransGen.single (Step.work 1 0 (initResult demoConfig)
      (.response 5 200 (some "unexpected EOF") (.obj []))),
    by decide, by decide, by decide, by decide⟩

/-- C6: the claim says a body-read error is recovered locally and the
worker goes on to process further work units.  The code evaluated at the
failing input: the error is indeed counted in the error-message map, but
the worker-loop iteration returns `break = true` — the worker exits its
loop and processes no further work units. -/
theorem C6_bodyReadError_breaks_worker_loop :
    (processEvent demoConfig (initResult demoConfig)
        (.response 5 200 (some "unexpected EOF") (.obj []))).2 = true ∧
    countOf (processEvent demoConfig (initResult demoConfig)
        (.response 5 200 (some "unexpected EOF") (.obj []))).1.errorMessages
      "读取响应体错误: unexpected EOF" = 1 := by
  exact ⟨by decide, by decide⟩

/-- C2 counterexample: a completed campaign (N = 1, C = 1) whose single
response was received with a mismatching status code: the latency sequence
has length 1 while `SuccessRequests + RequestTimeoutNum = 0`, refuting
"latency length = success + timeout count". -/
theorem C2_latency_length_counterexample :
    ∃ s : DState, Reaches demoConfig (initState demoConfig 1 1) s ∧
      s.workers = 0 ∧ s.remaining = 0 ∧
      (s.agg.requestsTimes.length : Int) ≠
        s.agg.successRequests + s.agg.requestTimeoutNum := by
  refine ⟨⟨0, 0, (processEvent demoConfig (initResult demoConfig)
      (.response 7 500 none (.obj []))).1⟩,
    Relation.ReflTransGen.tail
      (Relation.ReflTransGen.single (Step.work 0 0 (initResult demoConfig)
        (.response 7 500 none (.obj []))))
      (Step.drain 0 _),
    rfl, rfl, by decide⟩

/-- C2 amended: a latency entry is appended exactly for a timeout outcome
and for every received response — including body-read errors, status
mismatches and field mismatches — and never for a build/transport error,
so at completion the latency-sequence length is the timeout count plus the
number of received responses (not `success + timeout`). -/
theorem C2_latency_appended_iff_measured (request : RequestConfig) (st : Result)
    (e : ReqEvent) :
    (processEvent request st e).1.requestsTimes = st.requestsTimes ++ latencyRecord e ∧
    (latencyRecord e = [] ↔ ∃ m, e = .otherErr m) := by
  refine ⟨processEvent_requestsTimes request st e, ?_⟩
  cases e <;> simp [latencyRecord]

/-- C3 counterexample: a completed campaign (N = 1, C = 1) whose single
response has a matching status but two mismatching declared fields; both
field mismatches are counted in the error-message map, so
`success + timeout + sum of all classification-map counts = 2` while
`TotalRequests = 1` — the claimed equality fails. -/
theorem C3_classification_sum_counterexample :
    ∃ s : DState, Reaches twoFieldConfig (initState twoFieldConfig 1 1) s ∧
      s.workers = 0 ∧ s.remaining = 0 ∧ classSum s.agg ≠ s.agg.totalRequests := by
  refine ⟨⟨0, 0, (processEvent twoFieldConfig (initResult twoFieldConfig)
      (.response 7 200 none (.obj []))).1⟩,
    Relation.ReflTransGen.tail
      (Relation.ReflTransGen.single (Step.work 0 0 (initResult twoFieldConfig)
        (.response 7 200 none (.obj []))))
      (Step.drain 0 _),
    rfl, rfl, by decide⟩

/-- C3 amended: every request outcome contributes at least one
classification (success, timeout, or an entry increment in the error maps),
but a single failing response may contribute several — one error message
per mismatching field plus a status-code entry — so at every reachable
state of a campaign `success + timeout + sum of all map counts ≥
TotalRequests` (equality can fail). -/
theorem C3_classification_sum_ge_attempted (request : RequestConfig) (n c : ℕ)
    (s : DState) (h : Reaches request (initState request n c) s) :
    s.agg.totalRequests ≤ classSum s.agg :=
  reaches_classSum request h (by simp [initState, initResult, classSum, sumCounts])

/-- Witness for the C3 amended theorem: one worker processed one
transport-error outcome. -/
theorem C3_classification_sum_ge_attempted_witness :
    (nextState demoConfig 0 0 (initResult demoConfig)
        (.otherErr "connection refused")).agg.totalRequests ≤
      classSum (nextState demoConfig 0 0 (initResult demoConfig)
        (.otherErr "connection refused")).agg :=
  C3_classification_sum_ge_attempted demoConfig 1 1 _
    (Relation.ReflTransGen.single
      (Step.work 0 0 (initResult demoConfig) (.otherErr "connection refused")))

/-- C4 counterexample: the claim says the lookup result for path "a.b.c"
over a body with an explicit null leaf differs from the result over a body
with the leaf missing.  In the code both go through
`gjson.Get(...).Value()`, which yields Go `nil` in both cases — the two
results are equal. -/
theorem C4_null_vs_missing_equal :
    fieldLookupValue demoNullBody "a.b.c" = fieldLookupValue demoMissingBody "a.b.c" :=
  rfl

/-- C4 amended: the lookup descends object keys in order (the raw gjson
result distinguishes `some null` from `none`), but the value the Validator
observes — gjson's `Value()` — collapses both a missing path and an
explicit JSON null to Go `nil`, so a missing field and a field explicitly
set to null are NOT distinguishable to the Validator: both lookups over the
two bodies yield `nil`. -/
theorem C4_lookup_collapses_null_and_missing :
    splitDots "a.b.c" = ["a", "b", "c"] ∧
    jsonLookup demoNullBody ["a", "b", "c"] = some .null ∧
    jsonLookup demoMissingBody ["a", "b", "c"] = none ∧
    gjsonValue (some .null) = GoValue.nil ∧
    gjsonValue none = GoValue.nil ∧
    fieldLookupValue demoNullBody "a.b.c" = GoValue.nil ∧
    fieldLookupValue demoMissingBody "a.b.c" = GoValue.nil :=
  ⟨rfl, rfl, rfl, rfl, rfl, rfl, rfl⟩

/-- C5 counterexample: a received response with matching status (200) and
no declared field checks (so every field check passes vacuously) whose body
read fails: the code classifies it as a body-read error, not a success —
refuting "success if and only if status matches and every field check
passes" over received responses. -/
theorem C5_received_response_not_success_despite_checks :
    (processEvent demoConfig (initResult demoConfig)
        (.response 9 200 (some "short read") (.obj []))).1.successRequests = 0 ∧
    demoConfig.response.status = 200 ∧
    mismatchedFields demoConfig (.obj []) = [] := by
  exact ⟨by decide, by decide, rfl⟩

/-- C5 amended (restricted to received responses whose body was fully
read): the outcome is a success exactly when the status code equals the
expected status and no declared field check mismatches; and the validator
does not short-circuit — for every message string, the error-message count
grows by the number of mismatching paths producing that message, so every
mismatching path is recorded. -/
theorem C5_success_iff_status_and_fields (request : RequestConfig) (st : Result)
    (t s : Int) (body : Json) :
    (((processEvent request st (.response t s none body)).1.successRequests =
        st.successRequests + 1) ↔
      (request.response.status = s ∧ mismatchedFields request body = [])) ∧
    ((processEvent request st (.response t s none body)).1.successRequests =
        st.successRequests + 1 ∨
      (processEvent request st (.response t s none body)).1.successRequests =
        st.successRequests) ∧
    (∀ m : String,
      countOf (processEvent request st (.response t s none body)).1.errorMessages m =
        countOf st.errorMessages m +
          (((mismatchedFields request body).map (fieldMismatchMsg body)).count m : Int)) :=
  ⟨(processEvent_success_iff request st t s body).1,
   (processEvent_success_iff request st t s body).2,
   processEvent_messages request st t s body⟩

/-- C7: a timeout outcome increments the timeout counter, appends its
measured elapsed time to the latency sequence, leaves the success counter
unchanged (and does not break the worker loop); and the derived average
and max statistics are computed from that latency sequence, so timeouts
are included in the latency distribution but excluded from
`SuccessRequests`. -/
theorem C7_timeout_measured_excluded_from_success (request : RequestConfig)
    (st : Result) (t : Int) :
    (processEvent request st (.timeoutErr t)).1.requestTimeoutNum =
        st.requestTimeoutNum + 1 ∧
    (processEvent request st (.timeoutErr t)).1.requestsTimes =
        st.requestsTimes ++ [t] ∧
    (processEvent request st (.timeoutErr t)).1.successRequests =
        st.successRequests ∧
    (processEvent request st (.timeoutErr t)).2 = false ∧
    (∀ (r : Result) (w : Int),
      (finalizeResult r w).avgTime = average r.requestsTimes ∧
      (finalizeResult r w).maxTime = maxDuration r.requestsTimes) :=
  ⟨rfl, rfl, rfl, rfl, fun r w => ⟨rfl, rfl⟩⟩

/-- C8 counterexample: for the latency sequence `[1, 2]` the code's
`average` (and hence the finalized `AvgTime`) is the truncated quotient 1,
while the arithmetic mean demanded by the claim is 3/2 — the two differ. -/
theorem C8_average_is_not_exact_mean :
    (finalizeResult demoLatencyResult 3).avgTime = 1 ∧
    specAverageLatency [1, 2] = 3 / 2 ∧
    ((finalizeResult demoLatencyResult 3).avgTime : ℚ) ≠ specAverageLatency [1, 2] := by
  have h1 : (finalizeResult demoLatencyResult 3).avgTime = 1 := by decide
  have h2 : specAverageLatency [1, 2] = 3 / 2 := by
    rw [specAverageLatency, if_neg (by simp : ¬([1, 2] : List Int) = [])]
    norm_num
  refine ⟨h1, h2, ?_⟩
  rw [h1, h2]
  norm_num

/-- C8 amended: after the join barrier the derived statistics are computed
from the latency sequence alone; the average is the integer-truncated mean
(`0` if the sequence is empty; otherwise the unique `q` with
`q·len ≤ sum < (q+1)·len`), and the max is the greatest element of the
sequence (`0` if empty), assuming the measured latencies are nonnegative. -/
theorem C8_stats_truncated_mean_and_max (r : Result) (w : Int)
    (h : ∀ d ∈ r.requestsTimes, 0 ≤ d) :
    (finalizeResult r w).avgTime = average r.requestsTimes ∧
    (finalizeResult r w).maxTime = maxDuration r.requestsTimes ∧
    (r.requestsTimes = [] →
      average r.requestsTimes = 0 ∧ maxDuration r.requestsTimes = 0) ∧
    (r.requestsTimes ≠ [] →
      average r.requestsTimes * (r.requestsTimes.length : Int) ≤ r.requestsTimes.sum ∧
      r.requestsTimes.sum <
        (average r.requestsTimes + 1) * (r.requestsTimes.length : Int) ∧
      maxDuration r.requestsTimes ∈ r.requestsTimes) ∧
    (∀ d ∈ r.requestsTimes, d ≤ maxDuration r.requestsTimes) := by
  refine ⟨rfl, rfl, ?_, ?_, maxDuration_ub r.requestsTimes⟩
  · intro he
    simp [average, maxDuration, he]
  · intro hne
    exact ⟨(average_bounds r.requestsTimes h hne).1,
      (average_bounds r.requestsTimes h hne).2,
      maxDuration_mem r.requestsTimes h hne⟩

/-- Witness for the C8 amended theorem at the sequence `[1, 2]`. -/
theorem C8_stats_truncated_mean_and_max_witness :
    average demoLatencyResult.requestsTimes *
        (demoLatencyResult.requestsTimes.length : Int) ≤
      demoLatencyResult.requestsTimes.sum ∧
    demoLatencyResult.requestsTimes.sum <
      (average demoLatencyResult.requestsTimes + 1) *
        (demoLatencyResult.requestsTimes.length : Int) ∧
    maxDuration demoLatencyResult.requestsTimes ∈ demoLatencyResult.requestsTimes := by
  have h := C8_stats_truncated_mean_and_max demoLatencyResult 3 (by decide)
  exact h.2.2.2.1 (by decide)

/-- C9: the histogram of `showResult` (100 ms bins from 0 up to the max
latency, last bin clamped open-ended) partitions the latency sequence:
the bucket counts sum exactly to the sequence length, and every latency in
a non-final bucket `i` is strictly below that bucket's upper bound
`(i+1)·100` — only the last bucket can hold values at or above its nominal
bound. -/
theorem C9_histogram_partitions_latencies (times : List Int)
    (h : ∀ d ∈ times, 0 ≤ d) :
    (∑ i ∈ Finset.range (numIntervals (maxDuration times)).toNat,
        bucketCount (maxDuration times) times i) = times.length ∧
    ∀ (i : ℕ) (d : Int), ((i : Int) < numIntervals (maxDuration times) - 1) →
      d ∈ times → bucketIdx (numIntervals (maxDuration times)) d = (i : Int) →
      d < ((i : Int) + 1) * 100 := by
  have hmi : 1 ≤ numIntervals (maxDuration times) := by
    have := tdiv100_nonneg (maxDuration times) (maxDuration_nonneg times)
    unfold numIntervals
    omega
  constructor
  · exact sum_bucketCount_aux times (numIntervals (maxDuration times))
      fun d hd => bucketIdx_range _ d hmi (h d hd)
  · intro i d hi hd hb
    unfold bucketIdx at hb
    split at hb
    · omega
    · obtain ⟨m, rfl⟩ := Int.eq_ofNat_of_zero_le (h d hd)
      rw [tdiv100_natCast] at hb
      have hmd : m / 100 = i := by exact_mod_cast hb
      have hlt : m < (i + 1) * 100 := hmd ▸ nat_lt_div_succ_mul m 100 (by omega)
      exact_mod_cast hlt

/-- Witness for C9 at the latency sequence `[50, 250, 999]` (max 999, ten
buckets). -/
theorem C9_histogram_partitions_latencies_witness :
    (∑ i ∈ Finset.range (numIntervals (maxDuration [50, 250, 999])).toNat,
        bucketCount (maxDuration [50, 250, 999]) [50, 250, 999] i) =
      ([50, 250, 999] : List Int).length := by
  exact (C9_histogram_partitions_latencies [50, 250, 999] (by decide)).1

/-- C10: before a campaign starts, `runTest` rewrites an expected status of
0 (which is also what a config omitting the `status` field unmarshals to,
so the two specifications are the same `RequestConfig` value and thus
indistinguishable) to 200; consequently the campaign validates received
statuses against 200: a body-read-free response is counted a success
exactly when its status is 200 and no declared field check mismatches. -/
theorem C10_zero_status_validated_as_200 (request : RequestConfig) :
    normalizeRequest (withExpectedStatus request 0) = withExpectedStatus request 200 ∧
    (normalizeRequest (withExpectedStatus request 0)).response.status = 200 ∧
    ∀ (st : Result) (t s : Int) (body : Json),
      ((processEvent (normalizeRequest (withExpectedStatus request 0)) st
          (.response t s none body)).1.successRequests = st.successRequests + 1 ↔
        (s = 200 ∧ mismatchedFields (withExpectedStatus request 0) body = [])) := by
  have h1 : normalizeRequest (withExpectedStatus request 0) =
      withExpectedStatus request 200 := by
    simp [normalizeRequest, withExpectedStatus]
  refine ⟨h1, by rw [h1]; rfl, ?_⟩
  intro st t s body
  rw [h1]
  have h2 := (processEvent_success_iff (withExpectedStatus request 200) st t s body).1
  have h3 : mismatchedFields (withExpectedStatus request 200) body =
      mismatchedFields (withExpectedStatus request 0) body := rfl
  rw [h3] at h2
  rw [h2]
  constructor
  · rintro ⟨hs, hm⟩
    exact ⟨hs.symm, hm⟩
  · rintro ⟨hs, hm⟩
    exact ⟨hs.symm, hm⟩
